import Mathlib

/-!
# Verification of the emotion-analysis backend (src/backend/main.py)

Shallow embedding of the semantic query-expansion and result-aggregation
pipeline of `src/backend/main.py`.  External collaborators (the WordNet
dictionary, the sentence-embedding similarity service, the emotion and
sentiment classifiers, the keyphrase extractor and the Semantic Scholar
endpoint) are modelled as explicit parameters, exactly as the spec treats
them: opaque capabilities with a fixed contract.

Modelling conventions:
* Python floats are modelled as `ℚ`; the similarity threshold `0.6`, the
  intensity thresholds `0.9 / 0.7 / 0.5`, the mixed-emotion gap `0.2` and
  the diversity threshold `0.1` are exact rationals.
* Python's `round(x, n)` (round-half-to-even) is modelled exactly on `ℚ`.
* Python's builtin `set` has an unspecified (hash-dependent) iteration
  order; where the source materialises a set into a list
  (`get_wordnet_synonyms`, `get_bert_synonyms`) we fix the
  first-encountered order, and every theorem proved about those lists is
  order-insensitive (membership, `Nodup`, counting).  Claims that depend
  on the set's actual enumeration order are settled outside Lean.
-/

namespace AntiLyinLion

/-! ## Query formulation (main.py lines 41-71) -/

/-- Python `dict.fromkeys(l)` dedup: keep the first occurrence of every
element, preserve order.  `seen` accumulates the keys already emitted. -/
def pyDedupAux (seen : List String) : List String → List String
  | [] => []
  | x :: xs => if x ∈ seen then pyDedupAux seen xs else x :: pyDedupAux (x :: seen) xs

/-- `list(dict.fromkeys(l))`: first-occurrence-preserving deduplication. -/
def pyDedup (l : List String) : List String := pyDedupAux [] l

/-- Python `s.replace('_', ' ')`: the pattern is a single character, so
the replacement is a character-by-character map. -/
def underscoreToSpace (s : String) : String :=
  ⟨s.data.map fun c => if c = '_' then ' ' else c⟩

/-- Python `s[:300]`: keep the first 300 characters. -/
def pySlice300 (s : String) : String := ⟨s.data.take 300⟩

/-- `s` contains no uppercase character: what being case-normalized
(lower-cased) would at least require. -/
def caseNormalized (s : String) : Bool := s.data.all fun c => !c.isUpper

/-- `get_wordnet_synonyms` (main.py lines 41-43):
`list({lemma.name().replace('_', ' ') for syn in wordnet.synsets(word) for lemma in syn.lemmas()})`.
`lemmas w` stands for the flattened `lemma.name()` stream the external
WordNet collaborator yields for `w`; the set comprehension collapses
duplicates (exact match) and we fix its order to first-encountered. -/
def get_wordnet_synonyms (lemmas : String → List String) (word : String) : List String :=
  pyDedup ((lemmas word).map underscoreToSpace)

/-- The loop body of `get_bert_synonyms` (main.py lines 49-59) for one
keyword, instrumented with the number of cosine-similarity computations it
performs.  `lookup` is the dictionary stage (`get_wordnet_synonyms`),
`sim kw c` the cosine similarity the embedding collaborator reports
between `kw` and candidate `c`.  If the lookup is empty, the loop
`continue`s before any embedding call (0 similarity computations);
otherwise one similarity per candidate is computed and exactly the
candidates with similarity strictly greater than 0.6 are kept. -/
def resolveTerm (lookup : String → List String) (sim : String → String → ℚ)
    (kw : String) : List String × Nat :=
  let cands := lookup kw
  if cands.isEmpty then ([], 0)
  else (cands.filter fun c => decide ((6 : ℚ)/10 < sim kw c), cands.length)

/-- `get_bert_synonyms` (main.py lines 45-63): union of the per-keyword
accepted synonyms.  The source accumulates into a Python `set` and returns
`list(synonyms)`; we fix the order to first-encountered across the
keyword iteration (the theorems below use only order-insensitive facts). -/
def get_bert_synonyms (lookup : String → List String) (sim : String → String → ℚ)
    (keywords : List String) : List String :=
  pyDedup (keywords.flatMap fun kw => (resolveTerm lookup sim kw).1)

/-- The deduplicated term sequence of `formulate_search_query`
(main.py line 70): `list(dict.fromkeys(primary_terms + expanded_synonyms))`. -/
def queryTerms (lookup : String → List String) (sim : String → String → ℚ)
    (keywords : List String) : List String :=
  pyDedup (keywords.take 3 ++ get_bert_synonyms lookup sim (keywords.take 3))

/-- `formulate_search_query` (main.py lines 65-71):
`" ".join(query_terms)[:300]`. -/
def formulate_search_query (lookup : String → List String) (sim : String → String → ℚ)
    (keywords : List String) : String :=
  pySlice300 (String.intercalate " " (queryTerms lookup sim keywords))

/-! ## Emotion aggregation (main.py lines 107-173) -/

/-- One `{label, score}` record of the external emotion classifier. -/
structure Emotion where
  label : String
  score : ℚ
deriving DecidableEq

instance : Inhabited Emotion := ⟨⟨"", 0⟩⟩

/-- Insert into a descending-sorted list, before any entry of equal score:
this is the insertion step of a *stable* descending sort. -/
def insertDesc (x : Emotion) : List Emotion → List Emotion
  | [] => [x]
  | y :: ys => if y.score ≤ x.score then x :: y :: ys else y :: insertDesc x ys

/-- `sorted(emotion_results, key=lambda x: x['score'], reverse=True)`
(main.py line 108).  Python's `sorted` is a stable descending sort here;
a stable sort's output is determined by the key order and stability alone,
so this insertion sort computes the same list as CPython's Timsort. -/
def sortDesc : List Emotion → List Emotion
  | [] => []
  | x :: xs => insertDesc x (sortDesc xs)

/-- Round-half-to-even to an integer, the rule of Python's `round`. -/
def roundHalfEven (q : ℚ) : ℤ :=
  if q - ⌊q⌋ < 1/2 then ⌊q⌋
  else if 1/2 < q - ⌊q⌋ then ⌊q⌋ + 1
  else if 2 ∣ ⌊q⌋ then ⌊q⌋ else ⌊q⌋ + 1

/-- Python `round(x, 3)` on the exact rational value. -/
def round3 (q : ℚ) : ℚ := roundHalfEven (q * 1000) / 1000

/-- Python `round(x, 2)` on the exact rational value. -/
def round2 (q : ℚ) : ℚ := roundHalfEven (q * 100) / 100

/-- `get_emotional_intensity` (main.py lines 169-173). -/
def get_emotional_intensity (score : ℚ) : String :=
  if (9 : ℚ)/10 ≤ score then "very high"
  else if (7 : ℚ)/10 ≤ score then "high"
  else if (5 : ℚ)/10 ≤ score then "moderate"
  else "low"

/-! ## Academic source fetching (main.py lines 73-92, 150-159) -/

/-- A raw record of the Semantic Scholar response, with every field
optional exactly as `paper.get(...)` treats it. -/
structure RawPaper where
  title : Option String
  authors : List (Option String)
  year : Option Int
  url : Option String
  citationCount : Option Int
  similarity : Option ℚ
deriving DecidableEq

/-- A normalized entry of the report's `academic_sources` list. -/
structure AcademicSource where
  title : String
  authors : List String
  year : Option Int
  url : String
  citationCount : Int
  similarity : ℚ
deriving DecidableEq

/-- The normalization of one paper record (main.py lines 151-158); absent
fields get the defaults `'Untitled'`, `''`, `'#'`, `0`.  The absent-year
default `''` is rendered here as `none`. -/
def normalizePaper (p : RawPaper) : AcademicSource where
  title := p.title.getD "Untitled"
  authors := p.authors.map (·.getD "")
  year := p.year
  url := p.url.getD "#"
  citationCount := p.citationCount.getD 0
  similarity := round2 (p.similarity.getD 0)

/-- Outcome of the one literature-search request (main.py lines 82-84).
`timeout`, `httpError` (non-2xx, raised by `raise_for_status`) and
`malformedBody` (unparseable JSON, `requests.exceptions.JSONDecodeError`,
a `RequestException` subclass since requests 2.27) are all caught by the
`except requests.RequestException` clause. -/
inductive ScholarResponse where
  | timeout
  | httpError (code : Nat)
  | malformedBody
  | ok (data : List RawPaper)
deriving DecidableEq

/-- `search_semantic_scholar` (main.py lines 73-87): the `data` field on
success, the empty list on every caught failure. -/
def search_semantic_scholar : ScholarResponse → List RawPaper
  | .ok data => data
  | _ => []

/-- The failure outcomes of the endpoint: everything but a parsed 2xx
response. -/
def scholarFailed : ScholarResponse → Bool
  | .ok _ => false
  | _ => true

/-! ## The request pipeline (main.py lines 94-167) -/

/-- The external collaborators' responses for one request, fixed up front
(the spec's stubbed-collaborator view): the classifier outputs, the
extracted keywords, the WordNet lemma stream, the embedding similarity
and the literature-endpoint outcome. -/
structure Collaborators where
  emotion_results : List Emotion
  sentiment_result : Emotion
  keywords : List String
  lemmas : String → List String
  sim : String → String → ℚ
  scholar : ScholarResponse

/-- `{label, score}` pair as it appears in the report. -/
structure ScoredLabel where
  label : String
  score : ℚ
deriving DecidableEq

/-- The report's `primary_emotion` object (main.py lines 129-133). -/
structure PrimaryEmotion where
  label : String
  score : ℚ
  intensity : String
deriving DecidableEq

/-- The report's `emotional_complexity` object (main.py lines 138-141). -/
structure EmotionalComplexity where
  is_mixed : Bool
  diversity_score : ℚ
deriving DecidableEq

/-- The report's `keyword_insights` object (main.py lines 142-149). -/
structure KeywordInsights where
  key_phrases : List String
  emotional_triggers : List String
deriving DecidableEq

/-- The response shape of the `/analyze` endpoint (main.py lines 124-164). -/
structure Report where
  sentiment : ScoredLabel
  primary_emotion : PrimaryEmotion
  secondary_emotions : List ScoredLabel
  emotional_complexity : EmotionalComplexity
  keyword_insights : KeywordInsights
  academic_sources : List AcademicSource
  full_breakdown : List (String × ℚ)
deriving DecidableEq

/-- Substring test on character lists (Python's `needle in hay`). -/
def containsSub (needle hay : List Char) : Bool :=
  (List.range (hay.length + 1)).any fun i => needle.isPrefixOf (hay.drop i)

/-- Python `needle in hay` on strings. -/
def strContainsSub (hay needle : String) : Bool := containsSub needle.data hay.data

/-- The guard of the fetch (main.py line 121):
`if request.find_sources and keywords:`.  The Academic Source Fetcher is
invoked exactly when this is `true`. -/
def fetchGuard (find_sources : Bool) (keywords : List String) : Bool :=
  find_sources && !keywords.isEmpty

/-- `fetch_academic_articles` (main.py lines 89-92): formulates the query
and submits it; the endpoint's outcome is the collaborator's. -/
def fetch_academic_articles (c : Collaborators) : List RawPaper :=
  let _query := formulate_search_query (get_wordnet_synonyms c.lemmas) c.sim c.keywords
  search_semantic_scholar c.scholar

/-- The body of the `/analyze` handler after input validation
(main.py lines 106-167).  An empty classifier output makes
`sorted_emotions[0]` raise `IndexError`, which the `except Exception`
clause at line 166 converts to an HTTP 500; otherwise the report is
assembled field by field as at lines 124-164. -/
def analyze_core (c : Collaborators) (find_sources : Bool) : Except Nat Report :=
  match sortDesc c.emotion_results with
  | [] => .error 500
  | top :: rest =>
    let sorted_emotions := top :: rest
    let academic_sources :=
      if fetchGuard find_sources c.keywords then
        (fetch_academic_articles c).map normalizePaper
      else []
    .ok
      { sentiment := ⟨c.sentiment_result.label, round3 c.sentiment_result.score⟩
        primary_emotion := ⟨top.label, round3 top.score, get_emotional_intensity top.score⟩
        secondary_emotions := rest.map fun e => ⟨e.label, round3 e.score⟩
        emotional_complexity :=
          ⟨(match rest with
            | [] => false
            | second :: _ => decide (top.score - second.score < (2 : ℚ)/10)),
           round3 (((sorted_emotions.filter fun e =>
              decide ((1 : ℚ)/10 < e.score)).length : ℚ) / (sorted_emotions.length : ℚ))⟩
        keyword_insights :=
          ⟨c.keywords,
           c.keywords.filter fun phrase =>
             (sorted_emotions.take 5).any fun e => strContainsSub phrase.toLower e.label⟩
        academic_sources := academic_sources
        full_breakdown := sorted_emotions.map fun e => (e.label, round3 e.score) }

/-- A concrete request whose literature search times out: one emotion,
one keyword, an empty dictionary. -/
def stubFail : Collaborators :=
  ⟨[⟨"joy", 1⟩], ⟨"POSITIVE", 1⟩, ["stress"], fun _ => [], fun _ _ => 0, .timeout⟩

/-- A concrete request with no extracted keywords. -/
def stubNoKeywords : Collaborators :=
  ⟨[⟨"joy", 1⟩], ⟨"POSITIVE", 1⟩, [], fun _ => [], fun _ _ => 0, .ok []⟩

/-- A concrete request with two close emotion scores (0.55 and 0.45). -/
def stubMixed : Collaborators :=
  ⟨[⟨"joy", 11/20⟩, ⟨"fear", 9/20⟩], ⟨"POSITIVE", 1⟩, [], fun _ => [], fun _ _ => 0, .ok []⟩

/-! ## Lemmas about the first-occurrence dedup -/

theorem pyDedupAux_mem {x : String} {seen l} (h : x ∈ pyDedupAux seen l) :
    x ∈ l ∧ x ∉ seen := by
  induction l generalizing seen with
  | nil => simp [pyDedupAux] at h
  | cons y ys ih =>
    simp only [pyDedupAux] at h
    split at h
    · exact ⟨List.mem_cons_of_mem _ (ih h).1, (ih h).2⟩
    · rcases List.mem_cons.1 h with rfl | h'
      · exact ⟨List.mem_cons_self _ _, by assumption⟩
      · rcases ih h' with ⟨h1, h2⟩
        refine ⟨List.mem_cons_of_mem _ h1, fun hx => h2 (List.mem_cons_of_mem _ hx)⟩

theorem pyDedupAux_nodup (seen l) : (pyDedupAux seen l).Nodup := by
  induction l generalizing seen with
  | nil => simp [pyDedupAux]
  | cons y ys ih =>
    simp only [pyDedupAux]
    split
    · exact ih seen
    · refine List.nodup_cons.2 ⟨fun hy => ?_, ih (y :: seen)⟩
      exact (pyDedupAux_mem hy).2 (List.mem_cons_self _ _)

theorem pyDedupAux_mem_of (x : String) (seen l) (hx : x ∈ l) (hs : x ∉ seen) :
    x ∈ pyDedupAux seen l := by
  induction l generalizing seen with
  | nil => simp at hx
  | cons y ys ih =>
    simp only [pyDedupAux]
    split
    · rcases List.mem_cons.1 hx with rfl | h'
      · exact absurd (by assumption) hs
      · exact ih seen h' hs
    · rcases List.mem_cons.1 hx with rfl | h'
      · exact List.mem_cons_self _ _
      · by_cases hxy : x = y
        · subst hxy; exact List.mem_cons_self _ _
        · refine List.mem_cons_of_mem _ (ih (y :: seen) h' ?_)
          intro hmem
          rcases List.mem_cons.1 hmem with h | h
          · exact hxy h
          · exact hs h

theorem pyDedup_mem (x : String) (l : List String) : x ∈ pyDedup l ↔ x ∈ l :=
  ⟨fun h => (pyDedupAux_mem h).1,
   fun h => pyDedupAux_mem_of x [] l h (by simp)⟩

theorem pyDedup_nodup (l : List String) : (pyDedup l).Nodup :=
  pyDedupAux_nodup [] l

theorem pyDedupAux_sublist (seen l) : (pyDedupAux seen l).Sublist l := by
  induction l generalizing seen with
  | nil => simp [pyDedupAux]
  | cons y ys ih =>
    simp only [pyDedupAux]
    split
    · exact (ih seen).cons y
    · exact (ih (y :: seen)).cons₂ y

theorem pyDedup_sublist (l : List String) : (pyDedup l).Sublist l :=
  pyDedupAux_sublist [] l

theorem pyDedupAux_append (l r seen : List String) (hnd : l.Nodup)
    (hdisj : ∀ x ∈ l, x ∉ seen) :
    pyDedupAux seen (l ++ r) = l ++ pyDedupAux (l.reverse ++ seen) r := by
  induction l generalizing seen with
  | nil => simp
  | cons x xs ih =>
    rcases List.nodup_cons.1 hnd with ⟨hx, hxs⟩
    have hxseen : x ∉ seen := hdisj x (List.mem_cons_self _ _)
    simp only [List.cons_append, pyDedupAux, if_neg hxseen, List.append_eq]
    rw [ih (x :: seen) hxs (fun y hy => by
      intro hmem
      rcases List.mem_cons.1 hmem with rfl | h
      · exact hx hy
      · exact hdisj y (List.mem_cons_of_mem _ hy) h)]
    simp [List.reverse_cons, List.append_assoc]

theorem pySlice300_length (s : String) : (pySlice300 s).length ≤ 300 := by
  show (s.data.take 300).length ≤ 300
  rw [List.length_take]
  exact min_le_left _ _

/-! ## Lemmas about the stable descending sort -/

theorem insertDesc_perm (x : Emotion) (l : List Emotion) :
    (insertDesc x l).Perm (x :: l) := by
  induction l with
  | nil => simp [insertDesc]
  | cons y ys ih =>
    simp only [insertDesc]
    split
    · exact List.Perm.refl _
    · exact (ih.cons y).trans (List.Perm.swap x y ys)

theorem sortDesc_perm (l : List Emotion) : (sortDesc l).Perm l := by
  induction l with
  | nil => simp [sortDesc]
  | cons x xs ih => exact (insertDesc_perm x (sortDesc xs)).trans (ih.cons x)

theorem sortDesc_eq_nil_iff (l : List Emotion) : sortDesc l = [] ↔ l = [] := by
  constructor
  · intro h
    have := (sortDesc_perm l).length_eq
    rw [h] at this
    exact List.eq_nil_of_length_eq_zero this.symm
  · rintro rfl; rfl

theorem insertDesc_pairwise (x : Emotion) (l : List Emotion)
    (h : l.Pairwise fun a b => b.score ≤ a.score) :
    (insertDesc x l).Pairwise fun a b => b.score ≤ a.score := by
  induction l with
  | nil => simp [insertDesc]
  | cons y ys ih =>
    rcases List.pairwise_cons.1 h with ⟨hy, hys⟩
    simp only [insertDesc]
    split
    · refine List.pairwise_cons.2 ⟨?_, h⟩
      intro b hb
      rcases List.mem_cons.1 hb with rfl | hb'
      · assumption
      · exact le_trans (hy b hb') (by assumption)
    · refine List.pairwise_cons.2 ⟨?_, ih hys⟩
      intro b hb
      have hb' := (insertDesc_perm x ys).mem_iff.1 hb
      rcases List.mem_cons.1 hb' with rfl | hb''
      · exact le_of_lt (lt_of_not_le (by assumption))
      · exact hy b hb''

theorem sortDesc_pairwise (l : List Emotion) :
    (sortDesc l).Pairwise fun a b => b.score ≤ a.score := by
  induction l with
  | nil => simp [sortDesc]
  | cons x xs ih => exact insertDesc_pairwise x (sortDesc xs) ih

theorem filter_insertDesc (x : Emotion) (l : List Emotion) (q : ℚ) :
    (insertDesc x l).filter (fun e => decide (e.score = q)) =
      if x.score = q then x :: l.filter (fun e => decide (e.score = q))
      else l.filter (fun e => decide (e.score = q)) := by
  induction l with
  | nil => by_cases hx : x.score = q <;> simp [insertDesc, List.filter, hx]
  | cons y ys ih =>
    simp only [insertDesc]
    split
    · by_cases hx : x.score = q <;> simp [List.filter_cons, hx]
    · have hyx : x.score < y.score := lt_of_not_le (by assumption)
      by_cases hy : y.score = q
      · have hx : ¬ x.score = q := by
          intro hxq; rw [hxq, ← hy] at hyx; exact lt_irrefl _ hyx
        simp [List.filter_cons, hy, hx, ih]
      · by_cases hx : x.score = q <;> simp [List.filter_cons, hy, hx, ih]

theorem sortDesc_stable (l : List Emotion) (q : ℚ) :
    (sortDesc l).filter (fun e => decide (e.score = q)) =
      l.filter (fun e => decide (e.score = q)) := by
  induction l with
  | nil => simp [sortDesc]
  | cons x xs ih =>
    simp only [sortDesc]
    rw [filter_insertDesc]
    by_cases hx : x.score = q <;> simp [List.filter_cons, hx, ih]

/-! ## Intensity bucket characterization -/

theorem intensity_very_high_iff (s : ℚ) :
    get_emotional_intensity s = "very high" ↔ (9 : ℚ)/10 ≤ s := by
  unfold get_emotional_intensity
  split_ifs with h1 h2 h3 <;> simp [h1]

theorem intensity_high_iff (s : ℚ) :
    get_emotional_intensity s = "high" ↔ (7 : ℚ)/10 ≤ s ∧ s < (9 : ℚ)/10 := by
  unfold get_emotional_intensity
  split_ifs with h1 h2 h3
  · simp [not_lt.mpr h1]
  · simp [h2, not_le.mp h1]
  · simp [h2]
  · simp [h2]

theorem intensity_moderate_iff (s : ℚ) :
    get_emotional_intensity s = "moderate" ↔ (5 : ℚ)/10 ≤ s ∧ s < (7 : ℚ)/10 := by
  unfold get_emotional_intensity
  split_ifs with h1 h2 h3
  · have : ¬ s < (7 : ℚ)/10 := not_lt.mpr (le_trans (by norm_num) h1)
    simp [this]
  · simp [not_lt.mpr h2]
  · simp [h3, not_le.mp h2]
  · simp [h3]

theorem intensity_low_iff (s : ℚ) :
    get_emotional_intensity s = "low" ↔ s < (5 : ℚ)/10 := by
  unfold get_emotional_intensity
  split_ifs with h1 h2 h3
  · have : ¬ s < (5 : ℚ)/10 := not_lt.mpr (le_trans (by norm_num) h1)
    simp [this]
  · have : ¬ s < (5 : ℚ)/10 := not_lt.mpr (le_trans (by norm_num) h2)
    simp [this]
  · simp [not_lt.mpr h3]
  · simp [not_le.mp h3]

/-! ## Claims -/

/-- C1: For every keyword list (and any dictionary/similarity
collaborators), the term sequence of the query built by the Query
Formulator contains no duplicates — exact case-sensitive match, one
surviving occurrence per term, as `dict.fromkeys` keeps the first — it is
a subsequence of the concatenation of the primary terms and the expanded
synonyms with exactly their members, and the joined query string is at
most 300 characters long. -/
theorem expandedQuery_unique_and_bounded
    (lookup : String → List String) (sim : String → String → ℚ)
    (keywords : List String) (t : String) :
    (queryTerms lookup sim keywords).Nodup ∧
    (t ∈ queryTerms lookup sim keywords ↔
      t ∈ keywords.take 3 ++ get_bert_synonyms lookup sim (keywords.take 3)) ∧
    (queryTerms lookup sim keywords).Sublist
      (keywords.take 3 ++ get_bert_synonyms lookup sim (keywords.take 3)) ∧
    (formulate_search_query lookup sim keywords).length ≤ 300 :=
  ⟨pyDedup_nodup _, pyDedup_mem t _, pyDedup_sublist _, pySlice300_length _⟩

/-- C2: For every term, the Synonym Resolver returns the empty list with
zero similarity computations when the dictionary lookup yields no
candidates, and otherwise keeps a candidate exactly when its cosine
similarity to the term is strictly greater than 0.6; consequently every
synonym the expansion ever returns passed the strict 0.6 threshold
against one of the keywords. -/
theorem synonymResolver_threshold
    (lookup : String → List String) (sim : String → String → ℚ)
    (kw c : String) (keywords : List String) (s : String) :
    (lookup kw = [] → resolveTerm lookup sim kw = ([], 0)) ∧
    (c ∈ (resolveTerm lookup sim kw).1 ↔ c ∈ lookup kw ∧ (6 : ℚ)/10 < sim kw c) ∧
    (s ∈ get_bert_synonyms lookup sim keywords →
      ∃ kw' ∈ keywords, s ∈ lookup kw' ∧ (6 : ℚ)/10 < sim kw' s) := by
  refine ⟨fun h => by simp [resolveTerm, h], ?_, ?_⟩
  · unfold resolveTerm
    by_cases h : (lookup kw).isEmpty
    · rw [List.isEmpty_iff] at h
      simp [h]
    · simp [h, List.mem_filter]
  · intro hs
    rw [get_bert_synonyms, pyDedup_mem, List.mem_flatMap] at hs
    rcases hs with ⟨kw', hkw', hmem⟩
    refine ⟨kw', hkw', ?_⟩
    revert hmem
    unfold resolveTerm
    by_cases h : (lookup kw').isEmpty
    · simp [h]
    · simp [h, List.mem_filter]

/-- C8 counterexample: with the duplicated keyword list `["a", "a"]` (and
a dictionary with no candidates) the deduplicated term sequence is
`["a"]`, so its primary-term prefix is not the keyword list itself. -/
theorem primaryPrefix_duplicate_counterexample :
    queryTerms (fun _ => []) (fun _ _ => 0) ["a", "a"] = ["a"] ∧
    ((["a"] : List String) = ["a", "a"] → False) := by
  constructor
  · rfl
  · intro h
    simp at h

/-- C8 (amended): for every keyword list of length at most 3 whose
entries are pairwise distinct, the primary-term prefix of the query's
term sequence equals the keyword list itself. -/
theorem primaryPrefix_eq_keywords
    (lookup : String → List String) (sim : String → String → ℚ)
    (keywords : List String) (hlen : keywords.length ≤ 3) (hnd : keywords.Nodup) :
    (queryTerms lookup sim keywords).take keywords.length = keywords := by
  unfold queryTerms pyDedup
  rw [List.take_of_length_le hlen,
    pyDedupAux_append keywords _ [] hnd (by simp)]
  exact List.take_left keywords _

/-- C8 witness: the amended statement at the concrete distinct two-element
keyword list `["alpha", "beta"]`. -/
theorem primaryPrefix_eq_keywords_witness :
    (queryTerms (fun _ => []) (fun _ _ => 0) ["alpha", "beta"]).take 2 = ["alpha", "beta"] :=
  primaryPrefix_eq_keywords (fun _ => []) (fun _ _ => 0) ["alpha", "beta"]
    (by decide) (by decide)

/-- C9 counterexample: the dictionary wrapper does not case-normalize.
With a WordNet collaborator yielding the lemma `United_States`, the
candidate list is `["United States"]` — underscores replaced, but the
uppercase letters kept. -/
theorem wordnetSynonyms_case_counterexample :
    get_wordnet_synonyms (fun _ => ["United_States"]) "usa" = ["United States"] ∧
    caseNormalized "United States" = false := by
  constructor
  · rfl
  · rfl

/-- C9 (amended): for every term, the candidate synonyms obtained from
the dictionary lookup have underscores replaced with spaces and
duplicates collapsed (case-sensitive exact match) before similarity
filtering; no case normalization is applied, so a candidate is exactly an
underscore-to-space image of a WordNet lemma name. -/
theorem wordnetSynonyms_normalization
    (lemmas : String → List String) (word s : String) :
    (get_wordnet_synonyms lemmas word).Nodup ∧
    (s ∈ get_wordnet_synonyms lemmas word ↔
      ∃ t ∈ lemmas word, underscoreToSpace t = s) ∧
    (s ∈ get_wordnet_synonyms lemmas word → '_' ∉ s.data) := by
  refine ⟨pyDedup_nodup _, ?_, ?_⟩
  · rw [get_wordnet_synonyms, pyDedup_mem, List.mem_map]
  · intro hs hus
    rw [get_wordnet_synonyms, pyDedup_mem, List.mem_map] at hs
    rcases hs with ⟨t, _, rfl⟩
    rcases List.mem_map.1 hus with ⟨c, _, hc⟩
    by_cases h : c = '_' <;> simp [h] at hc

/-- C5: For every non-empty classifier output, the aggregator's ranking
is a permutation of the input, sorted descending by score, stable (for
every score value the entries carrying it keep the classifier's relative
order), `primary_emotion` is built from the highest-ranked entry with its
intensity bucket, and the buckets partition the score line at 0.9 / 0.7 /
0.5 with no gaps or overlaps. -/
theorem emotionRanking_stable_and_intensity
    (c : Collaborators) (fs : Bool) (q s : ℚ) (h : c.emotion_results ≠ []) :
    (sortDesc c.emotion_results).Perm c.emotion_results ∧
    ((sortDesc c.emotion_results).Pairwise fun a b => b.score ≤ a.score) ∧
    ((sortDesc c.emotion_results).filter fun e => decide (e.score = q)) =
      (c.emotion_results.filter fun e => decide (e.score = q)) ∧
    (analyze_core c fs).toOption.map Report.primary_emotion =
      some ⟨(sortDesc c.emotion_results).headI.label,
            round3 (sortDesc c.emotion_results).headI.score,
            get_emotional_intensity (sortDesc c.emotion_results).headI.score⟩ ∧
    (get_emotional_intensity s = "very high" ↔ (9 : ℚ)/10 ≤ s) ∧
    (get_emotional_intensity s = "high" ↔ (7 : ℚ)/10 ≤ s ∧ s < (9 : ℚ)/10) ∧
    (get_emotional_intensity s = "moderate" ↔ (5 : ℚ)/10 ≤ s ∧ s < (7 : ℚ)/10) ∧
    (get_emotional_intensity s = "low" ↔ s < (5 : ℚ)/10) := by
  have h4 : (analyze_core c fs).toOption.map Report.primary_emotion =
      some ⟨(sortDesc c.emotion_results).headI.label,
            round3 (sortDesc c.emotion_results).headI.score,
            get_emotional_intensity (sortDesc c.emotion_results).headI.score⟩ := by
    cases hs : sortDesc c.emotion_results with
    | nil => exact absurd ((sortDesc_eq_nil_iff _).1 hs) h
    | cons top rest =>
      simp only [analyze_core, hs]
      rfl
  exact ⟨sortDesc_perm _, sortDesc_pairwise _, sortDesc_stable _ q, h4,
    intensity_very_high_iff s, intensity_high_iff s, intensity_moderate_iff s,
    intensity_low_iff s⟩

/-- C5 witness: the full statement at the concrete two-emotion classifier
output of `stubMixed` (scores 0.55 and 0.45), with `q = 0.55` and
`s = 0.95`. -/
theorem emotionRanking_witness :
    (sortDesc stubMixed.emotion_results).Perm stubMixed.emotion_results ∧
    ((sortDesc stubMixed.emotion_results).Pairwise fun a b => b.score ≤ a.score) ∧
    ((sortDesc stubMixed.emotion_results).filter fun e => decide (e.score = 11/20)) =
      (stubMixed.emotion_results.filter fun e => decide (e.score = 11/20)) ∧
    (analyze_core stubMixed true).toOption.map Report.primary_emotion =
      some ⟨(sortDesc stubMixed.emotion_results).headI.label,
            round3 (sortDesc stubMixed.emotion_results).headI.score,
            get_emotional_intensity (sortDesc stubMixed.emotion_results).headI.score⟩ ∧
    (get_emotional_intensity (19/20) = "very high" ↔ (9 : ℚ)/10 ≤ 19/20) ∧
    (get_emotional_intensity (19/20) = "high" ↔ (7 : ℚ)/10 ≤ 19/20 ∧ (19 : ℚ)/20 < (9 : ℚ)/10) ∧
    (get_emotional_intensity (19/20) = "moderate" ↔ (5 : ℚ)/10 ≤ 19/20 ∧ (19 : ℚ)/20 < (7 : ℚ)/10) ∧
    (get_emotional_intensity (19/20) = "low" ↔ (19 : ℚ)/20 < (5 : ℚ)/10) :=
  emotionRanking_stable_and_intensity stubMixed true (11/20) (19/20)
    (by simp [stubMixed])

/-- C10: the report construction is total exactly on non-empty classifier
outputs: an empty emotion sequence makes the handler fail with HTTP 500
(the `sorted_emotions[0]` access), and a non-empty one always yields a
report (the diversity division's denominator is then positive). -/
theorem reportConstruction_safety (c : Collaborators) (fs : Bool) :
    (c.emotion_results = [] → analyze_core c fs = .error 500) ∧
    (c.emotion_results ≠ [] → ∃ r, analyze_core c fs = .ok r) ∧
    (c.emotion_results ≠ [] → 0 < c.emotion_results.length) := by
  refine ⟨?_, ?_, fun h => List.length_pos.2 h⟩
  · intro h
    simp [analyze_core, h, sortDesc]
  · intro h
    cases hs : sortDesc c.emotion_results with
    | nil => exact absurd ((sortDesc_eq_nil_iff _).1 hs) h
    | cons top rest =>
      simp only [analyze_core, hs]
      exact ⟨_, rfl⟩

/-- C6: For every non-empty classifier output, the report's `is_mixed` is
true exactly when there are at least 2 emotions and the gap between the
top two sorted scores is strictly below 0.2, and `diversity_score` is the
count of emotions scoring strictly above 0.1 divided by the total emotion
count, rounded to 3 decimals. -/
theorem emotionalComplexity_mixed_diversity
    (c : Collaborators) (fs : Bool) (h : c.emotion_results ≠ []) :
    (analyze_core c fs).toOption.map Report.emotional_complexity =
      some ⟨decide (2 ≤ c.emotion_results.length ∧
              (sortDesc c.emotion_results).headI.score -
                (sortDesc c.emotion_results).tail.headI.score < (2 : ℚ)/10),
            round3 (((c.emotion_results.filter fun e =>
                decide ((1 : ℚ)/10 < e.score)).length : ℚ) /
              (c.emotion_results.length : ℚ))⟩ := by
  cases hs : sortDesc c.emotion_results with
  | nil => exact absurd ((sortDesc_eq_nil_iff _).1 hs) h
  | cons top rest =>
    have hperm : (top :: rest).Perm c.emotion_results := by
      rw [← hs]; exact sortDesc_perm _
    have hlen : c.emotion_results.length = rest.length + 1 := by
      simpa using hperm.length_eq.symm
    have hfil : (c.emotion_results.filter fun e => decide ((1 : ℚ)/10 < e.score)).length =
        ((top :: rest).filter fun e => decide ((1 : ℚ)/10 < e.score)).length :=
      (List.Perm.length_eq (hperm.filter _)).symm
    simp only [analyze_core, hs]
    show some _ = some _
    rw [Option.some_inj, EmotionalComplexity.mk.injEq]
    constructor
    · cases rest with
      | nil =>
        symm
        rw [decide_eq_false_iff_not]
        rintro ⟨h2, -⟩
        rw [hlen] at h2
        simp at h2
      | cons second rest' =>
        refine decide_eq_decide.2 ⟨fun hlt => ⟨?_, ?_⟩, fun hp => ?_⟩
        · rw [hlen]; simp
        · simpa [List.headI] using hlt
        · simpa [List.headI] using hp.2
    · rw [hfil, hlen, List.length_cons]

/-- C6 witness: the spec's own example, two emotions scoring 0.55 and
0.45: `is_mixed` is true (gap 0.10 < 0.2) and `diversity_score` is 1.0
(both scores exceed 0.1). -/
theorem emotionalComplexity_witness :
    (analyze_core stubMixed true).toOption.map Report.emotional_complexity =
      some ⟨true, 1⟩ := by
  rw [emotionalComplexity_mixed_diversity stubMixed true (by simp [stubMixed])]
  have hsort : sortDesc stubMixed.emotion_results =
      [⟨"joy", 11/20⟩, ⟨"fear", 9/20⟩] := by
    simp only [stubMixed, sortDesc, insertDesc]
    rw [if_pos (by norm_num : (9 : ℚ)/20 ≤ 11/20)]
  have h1 : ((1 : ℚ)/10 < (11 : ℚ)/20) := by norm_num
  have h2 : ((1 : ℚ)/10 < (9 : ℚ)/20) := by norm_num
  have hmix : (2 ≤ stubMixed.emotion_results.length ∧
      (sortDesc stubMixed.emotion_results).headI.score -
        (sortDesc stubMixed.emotion_results).tail.headI.score < (2 : ℚ)/10) := by
    refine ⟨by simp [stubMixed], ?_⟩
    rw [hsort]
    show (11 : ℚ)/20 - (9 : ℚ)/20 < (2 : ℚ)/10
    norm_num
  have hdiv : (((stubMixed.emotion_results.filter fun e =>
      decide ((1 : ℚ)/10 < e.score)).length : ℚ) /
        (stubMixed.emotion_results.length : ℚ)) = 1 := by
    simp only [stubMixed]
    rw [List.filter_cons_of_pos (by simpa using h1),
      List.filter_cons_of_pos (by simpa using h2)]
    norm_num
  have hround : round3 (1 : ℚ) = 1 := by
    rw [round3, roundHalfEven]
    rw [show ((1 : ℚ) * 1000) = ((1000 : ℤ) : ℚ) by norm_num]
    rw [if_pos (by rw [Int.floor_intCast]; norm_num)]
    rw [Int.floor_intCast]
    norm_num
  rw [decide_eq_true hmix, hdiv, hround]

/-- C3: when the literature-search endpoint fails — timeout, non-2xx
status or malformed body — the fetcher returns the empty sequence, the
failure is non-fatal, and the report is still produced, identical to the
one a successful empty response yields, with `academic_sources = []`. -/
theorem fetchFailure_nonfatal (c : Collaborators) (fs : Bool)
    (hfail : scholarFailed c.scholar = true) (h : c.emotion_results ≠ []) :
    search_semantic_scholar c.scholar = [] ∧
    analyze_core c fs = analyze_core { c with scholar := .ok [] } fs ∧
    ∃ r, analyze_core c fs = .ok r ∧ r.academic_sources = [] := by
  have hsearch : search_semantic_scholar c.scholar = [] := by
    cases hsc : c.scholar with
    | ok data => rw [hsc] at hfail; exact absurd hfail (by simp [scholarFailed])
    | timeout => rfl
    | httpError code => rfl
    | malformedBody => rfl
  refine ⟨hsearch, ?_, ?_⟩
  · cases hs : sortDesc c.emotion_results with
    | nil => simp [analyze_core, hs]
    | cons top rest =>
      simp [analyze_core, hs, fetch_academic_articles, hsearch,
        show search_semantic_scholar (.ok []) = [] from rfl]
  · cases hs : sortDesc c.emotion_results with
    | nil => exact absurd ((sortDesc_eq_nil_iff _).1 hs) h
    | cons top rest =>
      simp only [analyze_core, hs]
      refine ⟨_, rfl, ?_⟩
      simp [fetch_academic_articles, hsearch]

/-- C3 witness: the failing endpoint of `stubFail` (a timeout) is
non-fatal and the report carries no academic sources. -/
theorem fetchFailure_nonfatal_witness :
    search_semantic_scholar stubFail.scholar = [] ∧
    analyze_core stubFail true = analyze_core { stubFail with scholar := .ok [] } true ∧
    ∃ r, analyze_core stubFail true = .ok r ∧ r.academic_sources = [] :=
  fetchFailure_nonfatal stubFail true rfl (by simp [stubFail])

/-- C7: when the extracted keyword list is empty, the formulated query is
the empty string, the Academic Source Fetcher's guard is off (it is never
invoked, whatever `find_sources` is), and the report — when one is
produced — has an empty `academic_sources` sequence. -/
theorem emptyKeywords_no_fetch (c : Collaborators) (fs : Bool)
    (h : c.keywords = []) :
    formulate_search_query (get_wordnet_synonyms c.lemmas) c.sim c.keywords = "" ∧
    fetchGuard fs c.keywords = false ∧
    ((analyze_core c fs).toOption.map Report.academic_sources = none ∨
      (analyze_core c fs).toOption.map Report.academic_sources = some []) := by
  refine ⟨by rw [h]; rfl, by simp [fetchGuard, h], ?_⟩
  cases hs : sortDesc c.emotion_results with
  | nil =>
    left
    simp [analyze_core, hs, Except.toOption]
  | cons top rest =>
    right
    simp only [analyze_core, hs]
    simp [fetchGuard, h, Except.toOption]

/-- C7 witness: the request of `stubNoKeywords` (no keywords, sources
requested) formulates the empty query, never fetches, and reports no
academic sources. -/
theorem emptyKeywords_no_fetch_witness :
    formulate_search_query (get_wordnet_synonyms stubNoKeywords.lemmas)
      stubNoKeywords.sim stubNoKeywords.keywords = "" ∧
    fetchGuard true stubNoKeywords.keywords = false ∧
    ((analyze_core stubNoKeywords true).toOption.map Report.academic_sources = none ∨
      (analyze_core stubNoKeywords true).toOption.map Report.academic_sources = some []) :=
  emptyKeywords_no_fetch stubNoKeywords true rfl

end AntiLyinLion
